import Mathlib

/-!
Shallow embedding of the 6502 emulator core (src/main.rs) and verification of
the specification's claims about it.

Modelling conventions:
* Machine integers (`u8`, `u16`, `u32`) are `Nat`s; every arithmetic operator
  the source applies to them is translated by a checked operation that returns
  `none` exactly when the Rust operator overflows (Rust's `+`, `-` and `<<` on
  unsigned integers panic on overflow in the default debug profile, and
  overflow of these operators is a program error in every profile).  Casts
  (`as u8`, `as u16`) become explicit `% 256` / `% 65536` truncations.
* The 64 KiB byte array becomes a total function `Nat → Nat`; indexing with a
  `u16` is always in bounds, so only `write_word`'s `usize` index (which can
  reach 65536) is bounds-checked.
* Fallible execution is threaded through `Option`: `none` models a panic.
* The `while cycles > 0` loop of `execute` runs on explicit fuel; each
  successful iteration consumes at least one cycle, so fuel `cycles + 1`
  is always sufficient and the fuel never decides termination.
-/

namespace R6502

/-- Checked unsigned addition: `a + b` in a type whose values are `< m`
(`m = 256` for `u8`, `65536` for `u16`). `none` models the overflow panic. -/
def checkedAdd (m a b : Nat) : Option Nat :=
  if a + b < m then some (a + b) else none

/-- Checked unsigned subtraction (same for every width): `none` on underflow. -/
def checkedSub (a b : Nat) : Option Nat :=
  if b ≤ a then some (a - b) else none

/-- `u8` left shift: Rust panics iff the shift amount is ≥ 8; otherwise the
shifted-out bits are discarded. -/
def shl8 (a s : Nat) : Option Nat :=
  if s < 8 then some ((a <<< s) % 256) else none

/-- `u16` left shift: Rust panics iff the shift amount is ≥ 16. -/
def shl16 (a s : Nat) : Option Nat :=
  if s < 16 then some ((a <<< s) % 65536) else none

/-- The packed status register `PS` (eight 1-bit fields). -/
structure PS where
  c : Bool
  z : Bool
  i : Bool
  d : Bool
  b : Bool
  u : Bool
  v : Bool
  n : Bool

/-- `PS::new()`: the generated constructor zero-initialises every field. -/
def PS.new : PS :=
  { c := false, z := false, i := false, d := false
    b := false, u := false, v := false, n := false }

/-- `struct MEM { data: [u8; 65536] }`. -/
structure MEM where
  data : Nat → Nat

/-- `MEM::initialize`: `self.data = [0; 65536]`. -/
def MEM.initialize (_ : MEM) : MEM :=
  ⟨fun _ => 0⟩

/-- Array store `self.data[idx] = val`; `none` models the index-out-of-bounds
panic (reachable from `write_word`'s `usize` arithmetic). -/
def memWrite (mem : MEM) (idx val : Nat) : Option MEM :=
  if idx < 65536 then some ⟨fun a => if a = idx then val else mem.data a⟩ else none

/-- `MEM::write_word(value, addr, cycles)`: stores `value` little-endian at
`addr` / `addr + 1` (the second index is `usize` arithmetic, which does not
wrap at 0xFFFF) and charges 2 cycles. -/
def MEM.write_word (mem : MEM) (value addr cycles : Nat) : Option (MEM × Nat) :=
  (memWrite mem addr (value % 256)).bind fun m1 =>
  (memWrite m1 (addr + 1) ((value >>> 8) % 256)).bind fun m2 =>
  (checkedSub cycles 2).map fun c => (m2, c)

/-- The processor registers, as in `struct CPU`. -/
structure CPU where
  pc : Nat
  sp : Nat
  a : Nat
  x : Nat
  y : Nat
  ps : PS

def CPU.INS_LDA_IM : Nat := 0xA9
def CPU.INS_LDA_ZP : Nat := 0xA5
def CPU.INS_LDA_ZX : Nat := 0xB5
def CPU.INS_LDA_AB : Nat := 0xAD
def CPU.INS_LDA_AX : Nat := 0xBD
def CPU.INS_LDA_AY : Nat := 0xB9
def CPU.INS_LDA_IX : Nat := 0xA1
def CPU.INS_LDA_IY : Nat := 0xB1
def CPU.INS_JSR : Nat := 0x20

/-- `CPU::reset`. -/
def CPU.reset (_ : CPU) (mem : MEM) : CPU × MEM :=
  ({ pc := 0xFFFC, sp := 0xFE, ps := PS.new, a := 0, x := 0, y := 0 },
   MEM.initialize mem)

/-- `CPU::fetch_byte`: reads `data[pc]`, increments `pc` (`u16`), charges one
cycle; returns `(data, updated cpu, updated cycles)`. -/
def CPU.fetch_byte (cpu : CPU) (cycles : Nat) (mem : MEM) :
    Option (Nat × CPU × Nat) :=
  (checkedAdd 65536 cpu.pc 1).bind fun pc1 =>
  (checkedSub cycles 1).map fun c => (mem.data cpu.pc, { cpu with pc := pc1 }, c)

/-- `CPU::fetch_word`: little-endian 16-bit fetch, two `pc` increments,
2 cycles.  The high byte is widened to `u16` before the shift. -/
def CPU.fetch_word (cpu : CPU) (cycles : Nat) (mem : MEM) :
    Option (Nat × CPU × Nat) :=
  (checkedAdd 65536 cpu.pc 1).bind fun pc1 =>
  (shl16 (mem.data pc1) 8).bind fun hs =>
  (checkedAdd 65536 pc1 1).bind fun pc2 =>
  (checkedSub cycles 2).map fun c =>
    (mem.data cpu.pc ||| hs, { cpu with pc := pc2 }, c)

/-- `CPU::read_byte`: one cycle, returns `data[addr]`. -/
def CPU.read_byte (cycles : Nat) (mem : MEM) (addr : Nat) : Option (Nat × Nat) :=
  (checkedSub cycles 1).map fun c => (mem.data addr, c)

/-- `CPU::read_word`: one cycle, then combines the bytes at `addr` and
`addr + 1` (a `u16` addition) with `low_byte | (hi_byte << 8)` computed in
`u8` arithmetic, exactly as the source does, before the `as u16` cast. -/
def CPU.read_word (cycles : Nat) (mem : MEM) (addr : Nat) : Option (Nat × Nat) :=
  (checkedSub cycles 1).bind fun c =>
  (checkedAdd 65536 addr 1).bind fun a1 =>
  (shl8 (mem.data a1) 8).map fun hs => ((mem.data addr ||| hs) % 65536, c)

/-- `CPU::addr_absolute` simply delegates to `fetch_word`. -/
def CPU.addr_absolute (cpu : CPU) (cycles : Nat) (mem : MEM) :
    Option (Nat × CPU × Nat) :=
  CPU.fetch_word cpu cycles mem

/-- `CPU::set_zero_and_negative_flags`: `z := register == 0`,
`n := (register & 0b1000000) > 0` (the mask the source actually uses). -/
def CPU.set_zero_and_negative_flags (cpu : CPU) (register : Nat) : CPU :=
  { cpu with
    ps := { cpu.ps with
            z := decide (register = 0)
            n := decide (0 < register &&& 0b1000000) } }

/-- The machine state threaded through one run of `execute`. -/
structure St where
  cpu : CPU
  mem : MEM
  cycles : Nat

/-- One iteration of the `while cycles > 0` loop body of `CPU::execute`:
fetch the opcode byte, dispatch, execute.  `none` models a panic inside the
iteration. -/
def execStep (s : St) : Option St :=
  (CPU.fetch_byte s.cpu s.cycles s.mem).bind fun fr =>
  let instruction := fr.1
  let cpu := fr.2.1
  let cycles := fr.2.2
  let mem := s.mem
  if instruction = CPU.INS_LDA_IM then
    (CPU.fetch_byte cpu cycles mem).map fun g =>
      let cpu2 := { g.2.1 with a := g.1 }
      ⟨CPU.set_zero_and_negative_flags cpu2 cpu2.a, mem, g.2.2⟩
  else if instruction = CPU.INS_LDA_ZP then
    (CPU.fetch_byte cpu cycles mem).bind fun g =>
    (CPU.read_byte g.2.2 mem g.1).map fun r =>
      let cpu2 := { g.2.1 with a := r.1 }
      ⟨CPU.set_zero_and_negative_flags cpu2 cpu2.a, mem, r.2⟩
  else if instruction = CPU.INS_LDA_ZX then
    (CPU.fetch_byte cpu cycles mem).bind fun g =>
    (checkedAdd 256 g.1 cpu.x).bind fun zpa =>
    (checkedSub g.2.2 1).bind fun cyc =>
    (CPU.read_byte cyc mem zpa).map fun r =>
      ⟨{ g.2.1 with a := r.1 }, mem, r.2⟩
  else if instruction = CPU.INS_LDA_AB then
    (CPU.addr_absolute cpu cycles mem).bind fun g =>
    (CPU.read_byte g.2.2 mem g.1).map fun r =>
      ⟨{ g.2.1 with a := r.1 }, mem, r.2⟩
  else if instruction = CPU.INS_LDA_AX then
    (CPU.addr_absolute cpu cycles mem).bind fun g =>
    (checkedAdd 65536 g.1 cpu.x).bind fun addrX =>
    (CPU.read_byte g.2.2 mem addrX).map fun r =>
      ⟨{ g.2.1 with a := r.1 }, mem, r.2⟩
  else if instruction = CPU.INS_LDA_AY then
    (CPU.addr_absolute cpu cycles mem).bind fun g =>
    (checkedAdd 65536 g.1 cpu.y).bind fun addrY =>
    (if (g.1 ^^^ addrY) >>> 8 = 0 then checkedSub g.2.2 1 else some g.2.2).bind
      fun cyc =>
    (CPU.read_byte cyc mem addrY).map fun r =>
      ⟨{ g.2.1 with a := r.1 }, mem, r.2⟩
  else if instruction = CPU.INS_LDA_IX then
    (CPU.fetch_byte cpu cycles mem).bind fun g =>
    (checkedAdd 256 g.1 cpu.x).bind fun zpx =>
    (checkedSub g.2.2 1).bind fun cyc =>
    (CPU.read_word cyc mem zpx).bind fun w =>
    (CPU.read_byte w.2 mem w.1).map fun r =>
      ⟨{ g.2.1 with a := r.1 }, mem, r.2⟩
  else if instruction = CPU.INS_LDA_IY then
    (CPU.fetch_byte cpu cycles mem).bind fun g =>
    (CPU.read_word g.2.2 mem g.1).bind fun w =>
    (checkedAdd 65536 w.1 cpu.y).bind fun effY =>
    (if (w.1 ^^^ effY) >>> 8 = 0 then checkedSub w.2 1 else some w.2).bind
      fun cyc =>
    (CPU.read_byte cyc mem effY).map fun r =>
      ⟨{ g.2.1 with a := r.1 }, mem, r.2⟩
  else if instruction = CPU.INS_JSR then
    (CPU.fetch_word cpu cycles mem).bind fun g =>
    (checkedSub g.2.1.pc 1).bind fun ret =>
    (MEM.write_word mem ret cpu.sp g.2.2).bind fun w =>
    (checkedAdd 256 cpu.sp 1).bind fun sp1 =>
    (checkedSub w.2 1).map fun cyc =>
      ⟨{ g.2.1 with pc := g.1, sp := sp1 }, w.1, cyc⟩
  else
    -- `print!("Instruction not handled ...")`: a diagnostic with no state effect.
    some ⟨cpu, mem, cycles⟩

/-- The `while cycles > 0` loop, on fuel (see the header comment). -/
def execLoop : Nat → St → Option St
  | 0, _ => none
  | fuel + 1, s =>
      if s.cycles = 0 then some s else (execStep s).bind (execLoop fuel)

/-- `CPU::execute(cycles, memory)`. -/
def CPU.execute (cpu : CPU) (cycles : Nat) (mem : MEM) : Option St :=
  execLoop (cycles + 1) ⟨cpu, mem, cycles⟩

/-! ### Concrete machine states used to evaluate the code -/

/-- The register state `reset` establishes (as in `main`, before `execute`). -/
def cpu0 : CPU := (CPU.reset ⟨0, 0, 0, 0, 0, PS.new⟩ ⟨fun _ => 0⟩).1

/-- A processor with all registers clear and `pc = 0`. -/
def cpuZero : CPU := { pc := 0, sp := 0xFE, a := 0, x := 0, y := 0, ps := PS.new }

/-- `cpuZero` with `x = 1`. -/
def cpuX1 : CPU := { cpuZero with x := 1 }

/-- The memory image `main` builds: `JSR $4242` at the reset vector and
`LDA #$84` at 0x4242, everything else zero. -/
def memMain : MEM :=
  ⟨fun a =>
    if a = 0xFFFC then 0x20 else if a = 0xFFFD then 0x42 else
    if a = 0xFFFE then 0x42 else if a = 0x4242 then 0xA9 else
    if a = 0x4243 then 0x84 else 0⟩

/-- Program `LDA #$84` at address 0. -/
def memIM84 : MEM := ⟨fun a => if a = 0 then 0xA9 else if a = 1 then 0x84 else 0⟩

/-- Program `LDA $0010` (absolute) at address 0; cell 0x0010 holds 0. -/
def memAB0 : MEM := ⟨fun a => if a = 0 then 0xAD else if a = 1 then 0x10 else 0⟩

/-- Program `LDA $0010,Y` at address 0 (no page cross when `y = 0`). -/
def memAY : MEM := ⟨fun a => if a = 0 then 0xB9 else if a = 1 then 0x10 else 0⟩

/-- Program `LDA $00FF,X` at address 0 (page cross when `x = 1`). -/
def memAX : MEM := ⟨fun a => if a = 0 then 0xBD else if a = 1 then 0xFF else 0⟩

/-- Program `LDA $FF,X` (zero-page,X) at address 0: operand byte 0xFF. -/
def memZX : MEM := ⟨fun a => if a = 0 then 0xB5 else if a = 1 then 0xFF else 0⟩

/-- `LDA #imm` at the reset vector (used for the budget-overdraw run). -/
def memIMvec : MEM := ⟨fun a => if a = 0xFFFC then 0xA9 else 0⟩

def stIM84 : St := ⟨cpuZero, memIM84, 10⟩
def stAB0 : St := ⟨cpuZero, memAB0, 10⟩
def stAY : St := ⟨cpuZero, memAY, 10⟩
def stAX : St := ⟨cpuX1, memAX, 10⟩
def stZX : St := ⟨cpuX1, memZX, 10⟩
def stPCov : St := ⟨{ cpuZero with pc := 0xFFFF }, ⟨fun _ => 0⟩, 10⟩

/-- The opcodes of the eight implemented LDA variants. -/
def ldaOpcodes : List Nat :=
  [CPU.INS_LDA_IM, CPU.INS_LDA_ZP, CPU.INS_LDA_ZX, CPU.INS_LDA_AB,
   CPU.INS_LDA_AX, CPU.INS_LDA_AY, CPU.INS_LDA_IX, CPU.INS_LDA_IY]

/-- Program `JSR $1234` at address 0x1000 (operand bytes 0x34, 0x12). -/
def memJ : MEM :=
  ⟨fun a =>
    if a = 0x1000 then 0x20 else if a = 0x1001 then 0x34 else
    if a = 0x1002 then 0x12 else 0⟩

/-- State about to execute the `JSR $1234`. -/
def stJ : St := ⟨{ pc := 0x1000, sp := 0x80, a := 0, x := 0, y := 0, ps := PS.new }, memJ, 10⟩

/-- State about to fetch an unimplemented opcode (0x00) with budget 5. -/
def st9 : St := ⟨cpuZero, ⟨fun _ => 0⟩, 5⟩

/-- The state `execStep` produces from `stIM84` (after `LDA #$84`). -/
def stIM84done : St := ⟨⟨2, 0xFE, 0x84, 0, 0, PS.new⟩, memIM84, 8⟩

/-- The state `execStep` produces from `stJ` (after `JSR $1234`). -/
def stJdone : St :=
  ⟨⟨0x1234, 0x81, 0, 0, 0, PS.new⟩,
   ⟨fun a => if a = 0x81 then 0x10 else if a = 0x80 then 0x02 else memJ.data a⟩,
   4⟩

/-! ### Helper lemmas -/

theorem checkedAdd_eq_some {m a b c : Nat} :
    checkedAdd m a b = some c ↔ a + b < m ∧ c = a + b := by
  unfold checkedAdd
  split
  · rename_i h
    simp only [Option.some.injEq, h, true_and]
    exact eq_comm
  · rename_i h
    simp [h]

theorem checkedSub_eq_some {a b c : Nat} :
    checkedSub a b = some c ↔ b ≤ a ∧ c = a - b := by
  unfold checkedSub
  split
  · rename_i h
    simp only [Option.some.injEq, h, true_and]
    exact eq_comm
  · rename_i h
    simp [h]

theorem memWrite_eq_some {mem : MEM} {idx val : Nat} {m' : MEM} :
    memWrite mem idx val = some m' ↔
      idx < 65536 ∧ m' = ⟨fun a => if a = idx then val else mem.data a⟩ := by
  unfold memWrite
  split
  · rename_i h
    simp only [Option.some.injEq, h, true_and]
    exact eq_comm
  · rename_i h
    simp [h]

theorem fetch_byte_eq_some {cpu : CPU} {cycles : Nat} {mem : MEM}
    {r : Nat × CPU × Nat} :
    CPU.fetch_byte cpu cycles mem = some r ↔
      cpu.pc + 1 < 65536 ∧ 1 ≤ cycles ∧
      r = (mem.data cpu.pc, { cpu with pc := cpu.pc + 1 }, cycles - 1) := by
  unfold CPU.fetch_byte
  simp only [Option.bind_eq_some, Option.map_eq_some', checkedAdd_eq_some,
    checkedSub_eq_some]
  constructor
  · rintro ⟨pc1, ⟨h1, rfl⟩, c, ⟨h2, rfl⟩, rfl⟩
    exact ⟨h1, h2, rfl⟩
  · rintro ⟨h1, h2, rfl⟩
    exact ⟨_, ⟨h1, rfl⟩, _, ⟨h2, rfl⟩, rfl⟩

theorem fetch_word_eq_some {cpu : CPU} {cycles : Nat} {mem : MEM}
    {r : Nat × CPU × Nat} :
    CPU.fetch_word cpu cycles mem = some r ↔
      cpu.pc + 1 < 65536 ∧ cpu.pc + 1 + 1 < 65536 ∧ 2 ≤ cycles ∧
      r = (mem.data cpu.pc ||| mem.data (cpu.pc + 1) <<< 8 % 65536,
           { cpu with pc := cpu.pc + 1 + 1 }, cycles - 2) := by
  unfold CPU.fetch_word shl16
  simp only [Option.bind_eq_some, Option.map_eq_some', checkedAdd_eq_some,
    checkedSub_eq_some]
  constructor
  · rintro ⟨pc1, ⟨h1, rfl⟩, hs, hhs, pc2, ⟨h2, rfl⟩, c, ⟨h3, rfl⟩, rfl⟩
    rw [if_pos (by decide)] at hhs
    cases hhs
    exact ⟨h1, h2, h3, rfl⟩
  · rintro ⟨h1, h2, h3, rfl⟩
    exact ⟨_, ⟨h1, rfl⟩, _, if_pos (by decide), _, ⟨h2, rfl⟩, _, ⟨h3, rfl⟩, rfl⟩

theorem or_div_two_pow (a b k : Nat) : (a ||| b) / 2 ^ k = a / 2 ^ k ||| b / 2 ^ k := by
  induction k with
  | zero => simp
  | succ k ih =>
      rw [pow_succ, ← Nat.div_div_eq_div_mul, ← Nat.div_div_eq_div_mul,
          ← Nat.div_div_eq_div_mul, ih, Nat.or_div_two]

/-- A little-endian pair combined with `|` equals the matching sum when the
low part fits in a byte. -/
theorem lor_byte_decomp (lo hi : Nat) (h : lo < 256) :
    lo ||| hi <<< 8 = lo + 256 * hi := by
  have hdiv : (lo ||| hi <<< 8) / 256 = hi := by
    have h2 : (256 : Nat) = 2 ^ 8 := by norm_num
    rw [h2, or_div_two_pow, Nat.shiftLeft_eq, Nat.div_eq_of_lt (by omega),
        Nat.mul_div_cancel _ (by norm_num), Nat.zero_or]
  have hmod : (lo ||| hi <<< 8) % 256 = lo := by
    have h2 : (256 : Nat) = 2 ^ 8 := by norm_num
    rw [h2, ← Nat.and_pow_two_sub_one_eq_mod, Nat.and_distrib_right,
        Nat.and_pow_two_sub_one_eq_mod, Nat.and_pow_two_sub_one_eq_mod,
        Nat.shiftLeft_eq, Nat.mul_mod_left, Nat.or_zero, Nat.mod_eq_of_lt (by omega)]
  have hsum := Nat.div_add_mod (lo ||| hi <<< 8) 256
  omega

/-- Claim C1 (refuted; code bug).  The claim says every LDA variant ends with
`z = (v = 0)` and `n = (bit 7 of v)`.  The code disagrees twice: (1) `LDA #$84`
loads a value whose bit 7 is set, yet the step leaves `n = false`, because
`set_zero_and_negative_flags` masks with `0b1000000` (bit 6); (2) `LDA $0010`
(absolute) loads 0 but leaves `z = false`, because only the immediate and
zero-page arms call `set_zero_and_negative_flags` at all. -/
theorem lda_flags_bug :
    ((execStep stIM84).map fun t => (t.cpu.a, t.cpu.ps.z, t.cpu.ps.n))
        = some (0x84, false, false) ∧
    Nat.testBit 0x84 7 = true ∧
    ((execStep stAB0).map fun t => (t.cpu.a, t.cpu.ps.z, t.cpu.ps.n))
        = some (0, false, false) := by
  refine ⟨by decide, by decide, by decide⟩

/-- Claim C2 (refuted; code bug).  The claim says the +1-cycle penalty for
absolute,X / absolute,Y / (indirect),Y is charged iff the high bytes of base
and effective address differ.  In the code the AY/IY test is inverted
(`== 0` instead of `!= 0`) and the AX arm has no penalty at all:
`LDA $0010,Y` with `y = 0` (no cross) consumes 5 cycles (10 → 5) where the
claim demands 4, and `LDA $00FF,X` with `x = 1` (cross) consumes 4 cycles
(10 → 6) where the claim demands 5. -/
theorem page_cross_penalty_bug :
    ((execStep stAY).map fun t => t.cycles) = some 5 ∧
    ((execStep stAX).map fun t => t.cycles) = some 6 := by
  refine ⟨by decide, by decide⟩

/-- Claim C3 (refuted; code bug).  Running `execute(8)` on the scenario from
`main` ends, as claimed, with `a = 0x84`, `pc = 0x4244`, `z = false` — but the
negative flag is `false`, not `true` as claimed, because the flag mask tests
bit 6 (0x40) and `0x84 = 0b10000100` has bit 6 clear.  (The run consumes the
budget exactly: 6 cycles for the JSR, 2 for the LDA, ending at 0.) -/
theorem main_scenario_negative_flag_bug :
    ((CPU.execute cpu0 8 memMain).map
        fun t => (t.cpu.a, t.cpu.pc, t.cpu.ps.z, t.cpu.ps.n, t.cycles))
      = some (0x84, 0x4244, false, false, 0) := by
  decide

/-- Claim C5 (refuted; code bug).  `read_word` computes
`low_byte | (hi_byte << 8)` in `u8` arithmetic: the shift amount 8 is the full
`u8` width, so the operation overflows on every call — the function can never
return the claimed little-endian word `mem[addr] | (mem[addr+1] << 8)`. -/
theorem read_word_always_panics (cycles : Nat) (mem : MEM) (addr : Nat) :
    CPU.read_word cycles mem addr = none := by
  unfold CPU.read_word shl8
  rcases h1 : checkedSub cycles 1 with _ | c
  · rfl
  · rcases h2 : checkedAdd 65536 addr 1 with _ | a1 <;> simp

/-- Claim C6 (confirmed).  `reset` sets `pc = 0xFFFC`, `sp = 0xFE`, clears all
eight status flags, zeroes `a`/`x`/`y` and every memory cell, and applying
`reset` to the state it produced yields exactly the same state (idempotence),
from every starting state. -/
theorem reset_state_and_idempotent (cpu : CPU) (mem : MEM) :
    (CPU.reset cpu mem).1.pc = 0xFFFC ∧
    (CPU.reset cpu mem).1.sp = 0xFE ∧
    (CPU.reset cpu mem).1.ps.c = false ∧
    (CPU.reset cpu mem).1.ps.z = false ∧
    (CPU.reset cpu mem).1.ps.i = false ∧
    (CPU.reset cpu mem).1.ps.d = false ∧
    (CPU.reset cpu mem).1.ps.b = false ∧
    (CPU.reset cpu mem).1.ps.u = false ∧
    (CPU.reset cpu mem).1.ps.v = false ∧
    (CPU.reset cpu mem).1.ps.n = false ∧
    (CPU.reset cpu mem).1.a = 0 ∧
    (CPU.reset cpu mem).1.x = 0 ∧
    (CPU.reset cpu mem).1.y = 0 ∧
    (∀ addr, (CPU.reset cpu mem).2.data addr = 0) ∧
    CPU.reset (CPU.reset cpu mem).1 (CPU.reset cpu mem).2 = CPU.reset cpu mem := by
  exact ⟨rfl, rfl, rfl, rfl, rfl, rfl, rfl, rfl, rfl, rfl, rfl, rfl, rfl,
         fun _ => rfl, rfl⟩

/-- Claim C7 (refuted; code bug).  The claim says all register/address
arithmetic wraps modulo its bit width and never traps.  The code uses Rust's
plain `+`, which is overflow-checked: `LDA $FF,X` with `x = 1` panics on the
`u8` addition `0xFF + 1` instead of wrapping to 0x00, and an opcode fetch with
`pc = 0xFFFF` panics on the `u16` increment instead of wrapping to 0x0000. -/
theorem indexed_wraparound_traps :
    execStep stZX = none ∧ execStep stPCov = none := by
  refine ⟨rfl, rfl⟩

/-- Claim C8 (refuted; code bug).  The claim says an instruction whose cost
exceeds the remaining budget completes and leaves the budget negative.  The
budget is a `u32`, so it can never be negative: with budget 1 and `LDA #imm`
(cost 2) at the reset vector, the operand fetch's `cycles -= 1` underflows and
the run panics (in a release build it would wrap to 4294967295 and keep the
loop running) instead of completing with budget −1. -/
theorem overdraw_traps_instead_of_negative :
    CPU.execute cpu0 1 memIMvec = none := by
  rfl

/-- Claim C9 (confirmed).  When the fetched opcode byte is none of the nine
implemented opcodes, the fallthrough arm only emits a diagnostic: the step
succeeds, exactly the 1-cycle opcode fetch is charged, the program counter
advances by exactly 1, registers, flags and memory are untouched, and the
loop simply continues on the decremented budget.  (The fetch itself needs
`pc + 1` to fit in `u16`, since the increment is overflow-checked.) -/
theorem unhandled_opcode_frame (s : St) (fuel : Nat)
    (hc : s.cycles ≠ 0)
    (hpc : s.cpu.pc + 1 < 65536)
    (hop : s.mem.data s.cpu.pc ∉
      (CPU.INS_JSR :: ldaOpcodes : List Nat)) :
    execStep s = some ⟨{ s.cpu with pc := s.cpu.pc + 1 }, s.mem, s.cycles - 1⟩ ∧
    execLoop (fuel + 1) s
      = execLoop fuel ⟨{ s.cpu with pc := s.cpu.pc + 1 }, s.mem, s.cycles - 1⟩ := by
  simp only [ldaOpcodes, List.mem_cons, List.not_mem_nil, or_false, not_or] at hop
  obtain ⟨hJ, h1, h2, h3, h4, h5, h6, h7, h8⟩ := hop
  have hfb : CPU.fetch_byte s.cpu s.cycles s.mem
      = some (s.mem.data s.cpu.pc, { s.cpu with pc := s.cpu.pc + 1 }, s.cycles - 1) :=
    fetch_byte_eq_some.mpr ⟨hpc, Nat.one_le_iff_ne_zero.mpr hc, rfl⟩
  have hstep : execStep s
      = some ⟨{ s.cpu with pc := s.cpu.pc + 1 }, s.mem, s.cycles - 1⟩ := by
    unfold execStep
    rw [hfb]
    simp only [Option.some_bind]
    rw [if_neg h1, if_neg h2, if_neg h3, if_neg h4, if_neg h5, if_neg h6,
        if_neg h7, if_neg h8, if_neg hJ]
  refine ⟨hstep, ?_⟩
  rw [execLoop, if_neg hc, hstep]
  rfl

/-- Witness for `unhandled_opcode_frame`: opcode 0x00 at `pc = 0` with
budget 5. -/
theorem unhandled_opcode_frame_witness :
    execStep st9
      = some ⟨{ st9.cpu with pc := st9.cpu.pc + 1 }, st9.mem, st9.cycles - 1⟩ ∧
    execLoop 4 st9
      = execLoop 3 ⟨{ st9.cpu with pc := st9.cpu.pc + 1 }, st9.mem, st9.cycles - 1⟩ :=
  unhandled_opcode_frame st9 3 (by decide) (by decide) (by decide)

/-- Claim C10 (confirmed).  Whichever of the eight LDA variants executes, if
the step completes it returns the memory unchanged and a processor that can
differ from the original only in `pc`, `a`, and the `z`/`n` flags: `x`, `y`,
`sp` and the other six status flags are untouched. -/
theorem lda_frame (s s' : St)
    (hop : s.mem.data s.cpu.pc ∈ ldaOpcodes)
    (h : execStep s = some s') :
    s'.cpu.x = s.cpu.x ∧ s'.cpu.y = s.cpu.y ∧ s'.cpu.sp = s.cpu.sp ∧
    s'.mem = s.mem ∧
    s'.cpu.ps.c = s.cpu.ps.c ∧ s'.cpu.ps.i = s.cpu.ps.i ∧
    s'.cpu.ps.d = s.cpu.ps.d ∧ s'.cpu.ps.b = s.cpu.ps.b ∧
    s'.cpu.ps.u = s.cpu.ps.u ∧ s'.cpu.ps.v = s.cpu.ps.v := by
  unfold execStep at h
  rw [Option.bind_eq_some] at h
  obtain ⟨fr, hfr, h⟩ := h
  rw [fetch_byte_eq_some] at hfr
  obtain ⟨-, -, rfl⟩ := hfr
  simp only [ldaOpcodes, List.mem_cons, List.not_mem_nil, or_false] at hop
  rcases hop with hO | hO | hO | hO | hO | hO | hO | hO <;> rw [hO] at h <;>
    dsimp only at h
  · rw [if_pos rfl] at h
    rw [Option.map_eq_some'] at h
    obtain ⟨g, hg, rfl⟩ := h
    rw [fetch_byte_eq_some] at hg
    obtain ⟨-, -, rfl⟩ := hg
    simp [CPU.set_zero_and_negative_flags]
  · rw [if_neg (by decide), if_pos rfl, Option.bind_eq_some] at h
    obtain ⟨g, hg, h⟩ := h
    rw [fetch_byte_eq_some] at hg
    obtain ⟨-, -, rfl⟩ := hg
    rw [Option.map_eq_some'] at h
    obtain ⟨r, -, rfl⟩ := h
    simp [CPU.set_zero_and_negative_flags]
  · rw [if_neg (by decide), if_neg (by decide), if_pos rfl,
        Option.bind_eq_some] at h
    obtain ⟨g, hg, h⟩ := h
    rw [fetch_byte_eq_some] at hg
    obtain ⟨-, -, rfl⟩ := hg
    rw [Option.bind_eq_some] at h
    obtain ⟨zpa, -, h⟩ := h
    rw [Option.bind_eq_some] at h
    obtain ⟨cyc, -, h⟩ := h
    rw [Option.map_eq_some'] at h
    obtain ⟨r, -, rfl⟩ := h
    simp
  · rw [if_neg (by decide), if_neg (by decide), if_neg (by decide),
        if_pos rfl, Option.bind_eq_some] at h
    obtain ⟨g, hg, h⟩ := h
    unfold CPU.addr_absolute at hg
    rw [fetch_word_eq_some] at hg
    obtain ⟨-, -, -, rfl⟩ := hg
    rw [Option.map_eq_some'] at h
    obtain ⟨r, -, rfl⟩ := h
    simp
  · rw [if_neg (by decide), if_neg (by decide), if_neg (by decide),
        if_neg (by decide), if_pos rfl, Option.bind_eq_some] at h
    obtain ⟨g, hg, h⟩ := h
    unfold CPU.addr_absolute at hg
    rw [fetch_word_eq_some] at hg
    obtain ⟨-, -, -, rfl⟩ := hg
    rw [Option.bind_eq_some] at h
    obtain ⟨addrX, -, h⟩ := h
    rw [Option.map_eq_some'] at h
    obtain ⟨r, -, rfl⟩ := h
    simp
  · rw [if_neg (by decide), if_neg (by decide), if_neg (by decide),
        if_neg (by decide), if_neg (by decide), if_pos rfl,
        Option.bind_eq_some] at h
    obtain ⟨g, hg, h⟩ := h
    unfold CPU.addr_absolute at hg
    rw [fetch_word_eq_some] at hg
    obtain ⟨-, -, -, rfl⟩ := hg
    rw [Option.bind_eq_some] at h
    obtain ⟨addrY, -, h⟩ := h
    rw [Option.bind_eq_some] at h
    obtain ⟨cyc, -, h⟩ := h
    rw [Option.map_eq_some'] at h
    obtain ⟨r, -, rfl⟩ := h
    simp
  · rw [if_neg (by decide), if_neg (by decide), if_neg (by decide),
        if_neg (by decide), if_neg (by decide), if_neg (by decide),
        if_pos rfl, Option.bind_eq_some] at h
    obtain ⟨g, hg, h⟩ := h
    rw [fetch_byte_eq_some] at hg
    obtain ⟨-, -, rfl⟩ := hg
    rw [Option.bind_eq_some] at h
    obtain ⟨zpx, -, h⟩ := h
    rw [Option.bind_eq_some] at h
    obtain ⟨cyc, -, h⟩ := h
    rw [Option.bind_eq_some] at h
    obtain ⟨w, -, h⟩ := h
    rw [Option.map_eq_some'] at h
    obtain ⟨r, -, rfl⟩ := h
    simp
  · rw [if_neg (by decide), if_neg (by decide), if_neg (by decide),
        if_neg (by decide), if_neg (by decide), if_neg (by decide),
        if_neg (by decide), if_pos rfl, Option.bind_eq_some] at h
    obtain ⟨g, hg, h⟩ := h
    rw [fetch_byte_eq_some] at hg
    obtain ⟨-, -, rfl⟩ := hg
    rw [Option.bind_eq_some] at h
    obtain ⟨w, -, h⟩ := h
    rw [Option.bind_eq_some] at h
    obtain ⟨effY, -, h⟩ := h
    rw [Option.bind_eq_some] at h
    obtain ⟨cyc, -, h⟩ := h
    rw [Option.map_eq_some'] at h
    obtain ⟨r, -, rfl⟩ := h
    simp

/-- Witness for `lda_frame`: `LDA #$84` from `stIM84`. -/
theorem lda_frame_witness :
    stIM84done.cpu.x = stIM84.cpu.x ∧ stIM84done.cpu.y = stIM84.cpu.y ∧
    stIM84done.cpu.sp = stIM84.cpu.sp ∧ stIM84done.mem = stIM84.mem ∧
    stIM84done.cpu.ps.c = stIM84.cpu.ps.c ∧
    stIM84done.cpu.ps.i = stIM84.cpu.ps.i ∧
    stIM84done.cpu.ps.d = stIM84.cpu.ps.d ∧
    stIM84done.cpu.ps.b = stIM84.cpu.ps.b ∧
    stIM84done.cpu.ps.u = stIM84.cpu.ps.u ∧
    stIM84done.cpu.ps.v = stIM84.cpu.ps.v :=
  lda_frame stIM84 stIM84done (by decide) rfl

/-- Claim C4 (confirmed).  For every state whose JSR step completes: the new
program counter is the little-endian 16-bit operand fetched at `P`/`P + 1`
(where `P = pc + 1` points just past the opcode byte), and the two bytes
written at `sp`/`sp + 1` encode, little-endian, the value
`P + 2 - 1 = pc + 2` — the post-operand program counter minus one. -/
theorem jsr_pushes_return_addr (s s' : St)
    (hbytes : ∀ a, s.mem.data a < 256)
    (hop : s.mem.data s.cpu.pc = CPU.INS_JSR)
    (h : execStep s = some s') :
    s'.cpu.pc = s.mem.data (s.cpu.pc + 1) + 256 * s.mem.data (s.cpu.pc + 2) ∧
    s'.mem.data s.cpu.sp + 256 * s'.mem.data (s.cpu.sp + 1) = s.cpu.pc + 2 := by
  unfold execStep at h
  rw [Option.bind_eq_some] at h
  obtain ⟨fr, hfr, h⟩ := h
  rw [fetch_byte_eq_some] at hfr
  obtain ⟨hpc1, -, rfl⟩ := hfr
  rw [hop] at h
  dsimp only at h
  rw [if_neg (by decide), if_neg (by decide), if_neg (by decide),
      if_neg (by decide), if_neg (by decide), if_neg (by decide),
      if_neg (by decide), if_neg (by decide), if_pos rfl,
      Option.bind_eq_some] at h
  obtain ⟨g, hg, h⟩ := h
  rw [fetch_word_eq_some] at hg
  obtain ⟨-, hpc3, -, rfl⟩ := hg
  dsimp only at h hpc3
  rw [Option.bind_eq_some] at h
  obtain ⟨ret, hret, h⟩ := h
  rw [checkedSub_eq_some] at hret
  obtain ⟨-, rfl⟩ := hret
  rw [Option.bind_eq_some] at h
  obtain ⟨w, hw, h⟩ := h
  unfold MEM.write_word at hw
  rw [Option.bind_eq_some] at hw
  obtain ⟨m1, hm1, hw⟩ := hw
  rw [memWrite_eq_some] at hm1
  obtain ⟨-, rfl⟩ := hm1
  rw [Option.bind_eq_some] at hw
  obtain ⟨m2, hm2, hw⟩ := hw
  rw [memWrite_eq_some] at hm2
  obtain ⟨-, rfl⟩ := hm2
  rw [Option.map_eq_some'] at hw
  obtain ⟨c2, -, rfl⟩ := hw
  rw [Option.bind_eq_some] at h
  obtain ⟨sp1, -, h⟩ := h
  rw [Option.map_eq_some'] at h
  obtain ⟨cy, -, rfl⟩ := h
  have hlow := hbytes (s.cpu.pc + 1)
  have hhi := hbytes (s.cpu.pc + 1 + 1)
  have h256 : (2 : Nat) ^ 8 = 256 := by norm_num
  have hshift : s.mem.data (s.cpu.pc + 1 + 1) <<< 8 % 65536
      = s.mem.data (s.cpu.pc + 1 + 1) <<< 8 := by
    refine Nat.mod_eq_of_lt ?_
    rw [Nat.shiftLeft_eq, h256]
    omega
  constructor
  · dsimp only
    rw [hshift, lor_byte_decomp _ _ hlow]
  · dsimp only
    rw [if_neg (by omega : ¬ s.cpu.sp = s.cpu.sp + 1), if_pos rfl, if_pos rfl]
    have hsr : (s.cpu.pc + 1 + 1 + 1 - 1) >>> 8 = (s.cpu.pc + 1 + 1 + 1 - 1) / 256 := by
      rw [Nat.shiftRight_eq_div_pow, h256]
    rw [hsr]
    omega

/-- Witness for `jsr_pushes_return_addr`: `JSR $1234` at `pc = 0x1000` with
`sp = 0x80` pushes 0x1002 (bytes 0x02, 0x10) and jumps to 0x1234. -/
theorem jsr_pushes_return_addr_witness :
    stJdone.cpu.pc = stJ.mem.data (stJ.cpu.pc + 1) + 256 * stJ.mem.data (stJ.cpu.pc + 2) ∧
    stJdone.mem.data stJ.cpu.sp + 256 * stJdone.mem.data (stJ.cpu.sp + 1)
      = stJ.cpu.pc + 2 :=
  jsr_pushes_return_addr stJ stJdone
    (fun a => by
      show memJ.data a < 256
      unfold memJ
      dsimp only
      repeat' split
      all_goals omega)
    (by decide) rfl

end R6502
